import Mathlib

/-!
Shallow embedding of `src/workspaces.py`, a monorepo task runner.

Strings are modelled as `List Char`; the filesystem, shell exit statuses and
captured stdout bytes are modelled as oracle functions passed explicitly.
Printing to the terminal is not modelled.  `os.path.join`/`os.chdir` are
modelled syntactically (no `..`/`.` normalisation): joining an absolute
second component yields it unchanged, otherwise the components are glued
with a single slash (the code only ever joins a non-empty first component
that does not end in a slash, where this is exact).
-/

namespace Workspaces

/-- The characters of a Lean string literal, used to write path and command
literals from the source. -/
def chars (s : String) : List Char := s.data

/-- A path is absolute when it starts with a slash. -/
def isAbs : List Char → Bool
  | [] => false
  | c :: _ => c == '/'

/-- `os.path.join a b` (also used for `os.chdir` resolution and
`os.path.abspath` of a path relative to the current directory). -/
def pathJoin (a b : List Char) : List Char :=
  if isAbs b then b else a ++ '/' :: b

/-- The single quote character, used in the `RuntimeError` message format
string `Error executing '%s'`. -/
def squote : Char := Char.ofNat 39

/-- The message of the `RuntimeError` raised by `cmd`/`run`:
`"Error executing '%s'" % s`. -/
def errorExecuting (s : List Char) : List Char :=
  chars "Error executing " ++ squote :: (s ++ [squote])

/-- The exceptions the executor can raise: the generic `RuntimeError`
carrying its message, and `UnicodeDecodeError` from `bytes.decode('utf8')`. -/
inductive PyError where
  | runtimeError : List Char → PyError
  | unicodeDecodeError : PyError
deriving DecidableEq

/-- `handle_path(s, path, verbose)`: `os.chdir(path)` when a path is given
(the printing of the description is not modelled).  Returns the new current
working directory. -/
def handle_path (path : Option (List Char)) (cwd : List Char) : List Char :=
  match path with
  | none => cwd
  | some p => pathJoin cwd p

/-- `cmd(s, path, verbose)`.  `sys c d` is the exit status `os.system(c)`
returns when run in directory `d`.  Returns the outcome, the process working
directory after the call (the `finally: os.chdir(home)` where
`home = os.path.abspath(os.curdir)`), and the trace of shell invocations
`(command, directory)` performed. -/
def cmd (sys : List Char → List Char → Nat) (s : List Char) (path : Option (List Char))
    (cwd : List Char) :
    Except PyError Unit × List Char × List (List Char × List Char) :=
  let home := cwd
  let cwd1 := handle_path path cwd
  ((if sys s cwd1 ≠ 0 then Except.error (PyError.runtimeError (errorExecuting s))
    else Except.ok ()),
   pathJoin cwd1 home, [(s, cwd1)])

/-- Strict UTF-8 decoding of a byte list, as `bytes.decode('utf8')`:
rejects stray/overlong sequences, surrogates and code points above
`0x10FFFF`; `none` models the raised `UnicodeDecodeError`. -/
def utf8Decode : List Nat → Option (List Char)
  | [] => some []
  | b :: rest =>
    if b < 0x80 then (utf8Decode rest).map (fun cs => Char.ofNat b :: cs)
    else if b < 0xC2 then none
    else if b < 0xE0 then
      match rest with
      | [] => none
      | c1 :: rest2 =>
        if 0x80 ≤ c1 ∧ c1 < 0xC0 then
          (utf8Decode rest2).map (fun cs => Char.ofNat ((b - 0xC0) * 0x40 + (c1 - 0x80)) :: cs)
        else none
    else if b < 0xF0 then
      match rest with
      | c1 :: c2 :: rest3 =>
        let cp := (b - 0xE0) * 0x1000 + (c1 - 0x80) * 0x40 + (c2 - 0x80)
        if (0x80 ≤ c1 ∧ c1 < 0xC0) ∧ (0x80 ≤ c2 ∧ c2 < 0xC0) ∧ 0x800 ≤ cp ∧
            ¬(0xD800 ≤ cp ∧ cp < 0xE000) then
          (utf8Decode rest3).map (fun cs => Char.ofNat cp :: cs)
        else none
      | _ => none
    else if b < 0xF5 then
      match rest with
      | c1 :: c2 :: c3 :: rest4 =>
        let cp := (b - 0xF0) * 0x40000 + (c1 - 0x80) * 0x1000 + (c2 - 0x80) * 0x40 + (c3 - 0x80)
        if (0x80 ≤ c1 ∧ c1 < 0xC0) ∧ (0x80 ≤ c2 ∧ c2 < 0xC0) ∧ (0x80 ≤ c3 ∧ c3 < 0xC0) ∧
            0x10000 ≤ cp ∧ cp < 0x110000 then
          (utf8Decode rest4).map (fun cs => Char.ofNat cp :: cs)
        else none
      | _ => none
    else none

/-- `run(s, path, verbose)`.  `sys c d` is the exit status of the subprocess
and `out c d` the bytes it wrote to the captured stdout pipe, when command
`c` runs in directory `d`.  Note the source decodes `a.stdout` BEFORE
checking `a.returncode`, so invalid UTF-8 raises `UnicodeDecodeError` even
on a nonzero exit status. -/
def run (sys : List Char → List Char → Nat) (out : List Char → List Char → List Nat)
    (s : List Char) (path : Option (List Char)) (cwd : List Char) :
    Except PyError (List Char) × List Char × List (List Char × List Char) :=
  let home := cwd
  let cwd1 := handle_path path cwd
  let res : Except PyError (List Char) :=
    match utf8Decode (out s cwd1) with
    | none => Except.error PyError.unicodeDecodeError
    | some o =>
        if sys s cwd1 ≠ 0 then Except.error (PyError.runtimeError (errorExecuting s))
        else Except.ok o
  (res, pathJoin cwd1 home, [(s, cwd1)])

/-- Events observable from `thread_map`: an invocation of the callable on an
input, and the creation of a `ThreadPool` with its size. -/
inductive TMEvent (α : Type) where
  | call : α → TMEvent α
  | poolCreated : Nat → TMEvent α
deriving DecidableEq

/-- `thread_map(callable, inputs, nb_threads)`.  Returns the list of results
together with the event trace.  The empty-input check precedes any pool
creation; `nb_threads == 1` is the list comprehension, sequential in input
order.  `ThreadPool.map` returns results in input order; the order in which
the pool's worker threads invoke the callable is scheduler-dependent and is
modelled here as input order (no claim depends on that branch's trace). -/
def thread_map {α β : Type} (callable : α → β) (inputs : List α) (nb_threads : Nat) :
    List β × List (TMEvent α) :=
  if inputs.length = 0 then ([], [])
  else if nb_threads = 1 then (inputs.map callable, inputs.map TMEvent.call)
  else (inputs.map callable, TMEvent.poolCreated nb_threads :: inputs.map TMEvent.call)

/-- `a == b` on characters, prefix check used by `hasSubChars`. -/
def hasPrefixChars : List Char → List Char → Bool
  | [], _ => true
  | _ :: _, [] => false
  | a :: t, b :: s => a == b && hasPrefixChars t s

/-- Python's `term in name` on strings: contiguous substring containment
(the empty string is a substring of everything). -/
def hasSubChars (t : List Char) : List Char → Bool
  | [] => t.isEmpty
  | b :: s => hasPrefixChars t (b :: s) || hasSubChars t s

/-- `matches(package, packages)` (renamed: `matches` is reserved in Lean): true when the filter string `packages` is
empty, else when some comma-separated term of it occurs as a substring of
the final `/`-separated component of `package`. -/
def matchesFilter (package : List Char) (packages : List Char) : Bool :=
  if packages = [] then true
  else
    let name := (package.splitOn '/').getLastD []
    (packages.splitOn ',').any (fun term => hasSubChars term name)

/-- The hard-coded seed list `v` of `packages(args)`, in source order. -/
def seedList : List (List Char) :=
  [chars "packages/cdn", chars "smc-util", chars "smc-hub", chars "smc-webapp",
   chars "webapp-lib"]

/-- The `for x in os.listdir('packages')` loop of `packages(args)`:
`isdir p` is `os.path.isdir(p)`, `listing` the entries `os.listdir`
returned, `v` the accumulator. -/
def addDiscovered (isdir : List Char → Bool) : List (List Char) → List (List Char) → List (List Char)
  | v, [] => v
  | v, x :: rest =>
    let path := pathJoin (chars "packages") x
    if path ∉ v ∧ isdir path = true then addDiscovered isdir (v ++ [path]) rest
    else addDiscovered isdir v rest

/-- The list `v` of `packages(args)` after the discovery loop: the seed list
followed by the discovered subdirectories. -/
def assembled (isdir : List Char → Bool) (listing : List (List Char)) : List (List Char) :=
  addDiscovered isdir seedList listing

/-- `packages(args)` (called `selectPackages` in the specification): the
assembled list filtered by `matches` against `args.packages`.  The
`print` of the resulting list is not modelled. -/
def packages (isdir : List Char → Bool) (listing : List (List Char))
    (filterArg : List Char) : List (List Char) :=
  (assembled isdir listing).filter (fun x => matchesFilter x filterArg)

/-- The literal install command of the `ci` handler. -/
def npmCi : List Char := chars "npm ci"

/-- The serial loop of `ci(args)` over the selected package list `v`:
`for path in v: cmd("npm ci", path)`.  Returns the outcome, the final
working directory and the trace of shell invocations; the loop stops at the
first raised error. -/
def ci (sys : List Char → List Char → Nat) :
    List (List Char) → List Char → Except PyError Unit × List Char × List (List Char × List Char)
  | [], cwd => (Except.ok (), cwd, [])
  | p :: rest, cwd =>
    match cmd sys npmCi (some p) cwd with
    | (Except.error e, cwd1, tr1) => (Except.error e, cwd1, tr1)
    | (Except.ok _, cwd1, tr1) =>
      match ci sys rest cwd1 with
      | (r, cwd2, tr2) => (r, cwd2, tr1 ++ tr2)

/-- Events observable from the `build` handler: a `shutil.rmtree` of a path,
and a shell invocation `(command, directory)`. -/
inductive BEvent where
  | rmtree : List Char → BEvent
  | exec : List Char → List Char → BEvent
deriving DecidableEq

/-- The literal `dist` folder name. -/
def distName : List Char := chars "dist"

/-- The literal path `packages/static` excluded from `dist` deletion. -/
def staticPath : List Char := chars "packages/static"

/-- The literal build command of the `build` handler. -/
def buildCmd : List Char := chars "time npm run build"

/-- The loop of `build(args)` over the selected package list: for each
package other than `packages/static`, delete `os.path.join(path, 'dist')`
when it exists, then `cmd("time npm run build", path)`.  `fs p` is
`os.path.exists(p)` keyed by the path string exactly as the code forms it;
`rmtree` removes that key.  The loop stops at the first raised error. -/
def buildLoop (sys : List Char → List Char → Nat) :
    (List Char → Bool) → List (List Char) → List Char →
    Except PyError Unit × List Char × List BEvent
  | _, [], cwd => (Except.ok (), cwd, [])
  | fs, p :: rest, cwd =>
    let dist := pathJoin p distName
    let fs1 : List Char → Bool := fun q => if q = dist then false else fs q
    let pre : (List Char → Bool) × List BEvent :=
      if p ≠ staticPath ∧ fs dist = true then (fs1, [BEvent.rmtree dist]) else (fs, [])
    match cmd sys buildCmd (some p) cwd with
    | (Except.error e, cwd1, tr1) =>
      (Except.error e, cwd1, pre.2 ++ tr1.map (fun pr => BEvent.exec pr.1 pr.2))
    | (Except.ok _, cwd1, tr1) =>
      let k := buildLoop sys pre.1 rest cwd1
      (k.1, k.2.1, pre.2 ++ tr1.map (fun pr => BEvent.exec pr.1 pr.2) ++ k.2.2)

/-- The folder-name selection of `clean(args)`: `--dist-only` is tested
first, then `--node-modules-only`, else both folders. -/
def cleanTargetFolders (dist_only node_modules_only : Bool) : List (List Char) :=
  if dist_only then [distName]
  else if node_modules_only then [chars "node_modules"]
  else [chars "node_modules", distName]

/-- The collection loop of `clean(args)`: for each selected package `path`
and each target folder `x`, `os.path.abspath(os.path.join(path, x))` is kept
when it exists.  `fs` is `os.path.exists`, `cwd` the current directory
`abspath` resolves against. -/
def cleanPaths (fs : List Char → Bool) (cwd : List Char)
    (v folders : List (List Char)) : List (List Char) :=
  v.flatMap (fun path => folders.filterMap (fun x =>
    let y := pathJoin cwd (pathJoin path x)
    if fs y = true then some y else none))

deriving instance DecidableEq for Except

/-- Joining an absolute second component returns it unchanged. -/
theorem pathJoin_abs (a b : List Char) (h : isAbs b = true) : pathJoin a b = b := by
  simp [pathJoin, h]

/-- `hasPrefixChars t s` decides `∃ r, s = t ++ r`. -/
theorem hasPrefixChars_iff : ∀ t s : List Char, hasPrefixChars t s = true ↔ ∃ r, s = t ++ r
  | [], s => by
    simp only [hasPrefixChars, List.nil_append, true_iff]
    exact ⟨s, rfl⟩
  | a :: t, [] => by
    simp [hasPrefixChars]
  | a :: t, b :: s => by
    simp only [hasPrefixChars, Bool.and_eq_true, beq_iff_eq]
    constructor
    · rintro ⟨rfl, h⟩
      obtain ⟨r, rfl⟩ := (hasPrefixChars_iff t s).1 h
      exact ⟨r, rfl⟩
    · rintro ⟨r, hr⟩
      injection hr with hb hs
      exact ⟨hb.symm, (hasPrefixChars_iff t s).2 ⟨r, hs⟩⟩

/-- `hasSubChars t s` decides contiguous-substring containment. -/
theorem hasSubChars_iff : ∀ t s : List Char, hasSubChars t s = true ↔ ∃ l r, s = l ++ t ++ r
  | t, [] => by
    simp only [hasSubChars, List.isEmpty_iff]
    constructor
    · rintro rfl
      exact ⟨[], [], rfl⟩
    · rintro ⟨l, r, h⟩
      rcases List.append_eq_nil.1 h.symm with ⟨h1, h2⟩
      rcases List.append_eq_nil.1 h1 with ⟨-, h3⟩
      exact h3
  | t, b :: s => by
    simp only [hasSubChars, Bool.or_eq_true]
    rw [hasPrefixChars_iff, hasSubChars_iff t s]
    constructor
    · rintro (⟨r, hr⟩ | ⟨l, r, hr⟩)
      · exact ⟨[], r, by simpa using hr⟩
      · exact ⟨b :: l, r, by simp [hr]⟩
    · rintro ⟨l, r, hr⟩
      cases l with
      | nil => exact Or.inl ⟨r, by simpa using hr⟩
      | cons c l2 =>
        injection hr with hb hs
        exact Or.inr ⟨l2, r, hs⟩

/-- The empty string is a substring of everything. -/
theorem hasSubChars_nil : ∀ s : List Char, hasSubChars [] s = true
  | [] => rfl
  | _ :: _ => by simp [hasSubChars, hasPrefixChars]

/-- Substring containment of `t` in `s`, as a decidable proposition (used to
state the selector claims at the `Prop` level). -/
instance decSubstring (t s : List Char) : Decidable (∃ l r, s = l ++ t ++ r) :=
  decidable_of_iff (hasSubChars t s = true) (hasSubChars_iff t s)

/-- `matchesFilter` decides: the filter is empty, or some comma-separated
term of it is a substring of the final `/`-separated component. -/
theorem matchesFilter_iff (package f : List Char) :
    matchesFilter package f = true ↔
      (f = [] ∨ ∃ t ∈ f.splitOn ',', ∃ l r,
        (package.splitOn '/').getLastD [] = l ++ t ++ r) := by
  unfold matchesFilter
  by_cases hf : f = []
  · simp [hf]
  · rw [if_neg hf, List.any_eq_true]
    constructor
    · rintro ⟨t, ht, hsub⟩
      exact Or.inr ⟨t, ht, (hasSubChars_iff _ _).1 hsub⟩
    · rintro (rfl | ⟨t, ht, hdec⟩)
      · exact absurd rfl hf
      · exact ⟨t, ht, (hasSubChars_iff _ _).2 hdec⟩

/-- C1: `selectPackages` (the `packages` function) returns exactly the
members of the assembled list whose final `/`-separated path segment
contains, as a case-sensitive substring, at least one of the terms obtained
by splitting the filter on commas; the whole assembled list is returned
when the filter is the empty string. -/
theorem c1_selectPackages_filter (isdir : List Char → Bool) (listing : List (List Char))
    (f : List Char) :
    packages isdir listing [] = assembled isdir listing ∧
    packages isdir listing f = (assembled isdir listing).filter (fun p : List Char =>
      decide (f = [] ∨ ∃ t ∈ f.splitOn ',', ∃ l r,
        (p.splitOn '/').getLastD [] = l ++ t ++ r)) := by
  constructor
  · unfold packages
    refine List.filter_eq_self.2 (fun a _ => ?_)
    simp [matchesFilter]
  · unfold packages
    refine List.filter_congr (fun x _ => ?_)
    by_cases hp : (f = [] ∨ ∃ t ∈ f.splitOn ',', ∃ l r,
        (x.splitOn '/').getLastD [] = l ++ t ++ r)
    · rw [decide_eq_true hp, (matchesFilter_iff x f).2 hp]
    · rw [decide_eq_false hp]
      rcases hm : matchesFilter x f with - | -
      · rfl
      · exact absurd ((matchesFilter_iff x f).1 hm) hp

/-- Characterisation of the discovery loop: it appends to its accumulator a
duplicate-free block of directory paths discovered from the listing, none of
which was already in the accumulator. -/
theorem addDiscovered_spec (isdir : List Char → Bool) :
    ∀ (listing v : List (List Char)), ∃ d,
      addDiscovered isdir v listing = v ++ d ∧
      (∀ p ∈ d, p ∉ v ∧ isdir p = true ∧ ∃ x ∈ listing, p = pathJoin (chars "packages") x) ∧
      d.Nodup
  | [], v => ⟨[], by simp [addDiscovered]⟩
  | x :: rest, v => by
    by_cases hc : pathJoin (chars "packages") x ∉ v ∧ isdir (pathJoin (chars "packages") x) = true
    · obtain ⟨d, hd, hmem, hnd⟩ :=
        addDiscovered_spec isdir rest (v ++ [pathJoin (chars "packages") x])
      refine ⟨pathJoin (chars "packages") x :: d, ?_, ?_, ?_⟩
      · rw [addDiscovered, if_pos hc, hd]
        simp
      · intro p hp
        rcases List.mem_cons.1 hp with rfl | hp2
        · exact ⟨hc.1, hc.2, x, List.mem_cons_self x rest, rfl⟩
        · obtain ⟨hnv, hdir, y, hy, hpy⟩ := hmem p hp2
          exact ⟨fun h => hnv (List.mem_append_left _ h), hdir, y,
            List.mem_cons_of_mem x hy, hpy⟩
      · refine List.nodup_cons.2 ⟨fun h => ?_, hnd⟩
        exact (hmem _ h).1 (List.mem_append_right _ (List.mem_singleton.2 rfl))
    · obtain ⟨d, hd, hmem, hnd⟩ := addDiscovered_spec isdir rest v
      refine ⟨d, ?_, ?_, hnd⟩
      · rw [addDiscovered, if_neg hc, hd]
      · intro p hp
        obtain ⟨hnv, hdir, y, hy, hpy⟩ := hmem p hp
        exact ⟨hnv, hdir, y, List.mem_cons_of_mem x hy, hpy⟩

/-- C2: the output of `selectPackages` is the filtered seed list, in its
declared order, followed only by discovered subdirectories of the packages
root that are not seed paths; and the output has no duplicates. -/
theorem c2_seed_order_nodup (isdir : List Char → Bool) (listing : List (List Char))
    (f : List Char) :
    ∃ rest, packages isdir listing f = seedList.filter (fun x => matchesFilter x f) ++ rest ∧
      (∀ p ∈ rest, p ∉ seedList ∧ isdir p = true ∧
        ∃ x ∈ listing, p = pathJoin (chars "packages") x) ∧
      (packages isdir listing f).Nodup := by
  obtain ⟨d, hd, hmem, hnd⟩ := addDiscovered_spec isdir listing seedList
  have hasm : assembled isdir listing = seedList ++ d := hd
  refine ⟨d.filter (fun x => matchesFilter x f), ?_, ?_, ?_⟩
  · unfold packages
    rw [hasm, List.filter_append]
  · intro p hp
    exact hmem p (List.mem_of_mem_filter hp)
  · unfold packages
    refine List.Nodup.filter _ ?_
    rw [hasm, List.nodup_append]
    refine ⟨by decide, hnd, fun a ha had => (hmem a had).1 ha⟩

/-- C2 witness: a concrete instance of the no-duplicates consequence. -/
theorem c2_witness :
    (packages (fun _ => true) [chars "zz", chars "cdn"] []).Nodup := by
  obtain ⟨rest, -, -, hnd⟩ :=
    c2_seed_order_nodup (fun _ => true) [chars "zz", chars "cdn"] []
  exact hnd

/-- C3: both executor variants restore the process working directory on
every outcome: the directory after the call equals the directory before it,
whether the command succeeded or the execution error was raised. -/
theorem c3_cwd_restored (sys : List Char → List Char → Nat)
    (out : List Char → List Char → List Nat) (s : List Char)
    (path : Option (List Char)) (cwd : List Char) (habs : isAbs cwd = true) :
    (cmd sys s path cwd).2.1 = cwd ∧ (run sys out s path cwd).2.1 = cwd := by
  exact ⟨pathJoin_abs _ _ habs, pathJoin_abs _ _ habs⟩

/-- C3 witness: concrete success and failure calls both end in `/w`. -/
theorem c3_witness :
    (cmd (fun _ _ => 1) (chars "boom") (some (chars "p")) (chars "/w")).2.1 = chars "/w" ∧
    (run (fun _ _ => 1) (fun _ _ => [255]) (chars "boom") (some (chars "p"))
      (chars "/w")).2.1 = chars "/w" :=
  c3_cwd_restored (fun _ _ => 1) (fun _ _ => [255]) (chars "boom") (some (chars "p"))
    (chars "/w") (by decide)

/-- C6: `thread_map` on an empty input list returns an empty result with an
empty event trace (no invocation of the callable, no pool creation); with
one worker it invokes the callable on each input sequentially in input
order and returns the results in that order. -/
theorem c6_thread_map (α β : Type) (callable : α → β) (inputs : List α) (n : Nat) :
    thread_map callable ([] : List α) n = ([], []) ∧
    thread_map callable inputs 1 = (inputs.map callable, inputs.map TMEvent.call) := by
  refine ⟨rfl, ?_⟩
  cases inputs with
  | nil => rfl
  | cons a l => simp [thread_map]

/-- C9: a non-empty filter string one of whose comma-separated terms is
empty makes `matches` return true on every package, so `selectPackages`
returns the whole assembled list. -/
theorem c9_empty_term (p f : List Char) (hne : f ≠ []) (hterm : [] ∈ f.splitOn ',') :
    matchesFilter p f = true ∧
    ∀ (isdir : List Char → Bool) (listing : List (List Char)),
      packages isdir listing f = assembled isdir listing := by
  have hm : ∀ q : List Char, matchesFilter q f = true := by
    intro q
    unfold matchesFilter
    rw [if_neg hne]
    exact List.any_eq_true.2 ⟨[], hterm, hasSubChars_nil _⟩
  refine ⟨hm p, fun isdir listing => ?_⟩
  unfold packages
  exact List.filter_eq_self.2 (fun a _ => hm a)

/-- C9 witness: the filter `","` matches `smc-hub` and selects everything. -/
theorem c9_witness :
    matchesFilter (chars "smc-hub") (chars ",") = true ∧
    packages (fun _ => true) [chars "x1"] (chars ",") =
      assembled (fun _ => true) [chars "x1"] := by
  have H := c9_empty_term (chars "smc-hub") (chars ",") (by decide) (by decide)
  exact ⟨H.1, H.2 (fun _ => true) [chars "x1"]⟩

/-- C10: when both `--dist-only` and `--node-modules-only` are set,
`--dist-only` wins: the target folder list is exactly `['dist']`, it does
not mention `node_modules`, and every collected path is the `dist`
directory of some selected package. -/
theorem c10_clean_flag_precedence (fs : List Char → Bool) (cwd : List Char)
    (v : List (List Char)) :
    cleanTargetFolders true true = [distName] ∧
    chars "node_modules" ∉ cleanTargetFolders true true ∧
    ∀ y ∈ cleanPaths fs cwd v (cleanTargetFolders true true),
      ∃ p ∈ v, y = pathJoin cwd (pathJoin p distName) := by
  refine ⟨rfl, by decide, ?_⟩
  intro y hy
  unfold cleanPaths cleanTargetFolders at hy
  simp only [if_pos trivial, List.mem_flatMap, List.mem_filterMap,
    List.mem_singleton] at hy
  obtain ⟨p, hp, x, hx, hxy⟩ := hy
  subst hx
  split at hxy
  · exact ⟨p, hp, (Option.some.inj hxy).symm⟩
  · exact absurd hxy (by simp)

/-- C10 witness: the folder list at the concrete flags. -/
theorem c10_witness : cleanTargetFolders true true = [distName] :=
  (c10_clean_flag_precedence (fun _ => true) (chars "/w") [chars "pkg"]).1

/-- C4 counterexample: a command with exit status 1 whose stdout is the
single byte `0xFF` makes `run` raise `UnicodeDecodeError`, not the generic
execution error — refuting "raise the generic execution error if and only
if the exit status is nonzero" for `run`. -/
theorem c4_counterexample :
    (fun (_ _ : List Char) => 1) (chars "boom") (chars "/w") ≠ 0 ∧
    (run (fun _ _ => 1) (fun _ _ => [255]) (chars "boom") none (chars "/w")).1 =
      Except.error PyError.unicodeDecodeError ∧
    (run (fun _ _ => 1) (fun _ _ => [255]) (chars "boom") none (chars "/w")).1 ≠
      Except.error (PyError.runtimeError (errorExecuting (chars "boom"))) :=
  ⟨by decide, by decide, by decide⟩

/-- C4 (amended): `cmd` raises the generic execution error iff the exit
status is nonzero and returns nothing on a zero status; `run` does the same
and returns the decoded stdout on a zero status PROVIDED the captured
stdout decodes as UTF-8 (otherwise a decode error pre-empts the status
check); the generic error message carries the literal command string. -/
theorem c4_status_error (sys : List Char → List Char → Nat)
    (out : List Char → List Char → List Nat) (s : List Char)
    (path : Option (List Char)) (cwd : List Char) :
    ((cmd sys s path cwd).1 = Except.error (PyError.runtimeError (errorExecuting s)) ↔
      sys s (handle_path path cwd) ≠ 0) ∧
    (sys s (handle_path path cwd) = 0 → (cmd sys s path cwd).1 = Except.ok ()) ∧
    (∀ decoded, utf8Decode (out s (handle_path path cwd)) = some decoded →
      (((run sys out s path cwd).1 =
          Except.error (PyError.runtimeError (errorExecuting s)) ↔
        sys s (handle_path path cwd) ≠ 0) ∧
       (sys s (handle_path path cwd) = 0 →
        (run sys out s path cwd).1 = Except.ok decoded))) ∧
    (∃ l r, errorExecuting s = l ++ s ++ r) := by
  refine ⟨?_, ?_, ?_, chars "Error executing " ++ [squote], [squote], ?_⟩
  · by_cases h : sys s (handle_path path cwd) = 0 <;> simp [cmd, h]
  · intro h
    simp [cmd, h]
  · intro decoded hdec
    constructor
    · by_cases h : sys s (handle_path path cwd) = 0 <;> simp [run, hdec, h]
    · intro h
      simp [run, hdec, h]
  · simp [errorExecuting]

/-- C4 witness: a zero-status call returns nothing from `cmd` and the
decoded stdout from `run`. -/
theorem c4_witness :
    (cmd (fun _ _ => 0) (chars "ls") none (chars "/w")).1 = Except.ok () ∧
    (run (fun _ _ => 0) (fun _ _ => [104, 105]) (chars "ls") none (chars "/w")).1 =
      Except.ok (chars "hi") := by
  refine ⟨(c4_status_error (fun _ _ => 0) (fun _ _ => [104, 105]) (chars "ls") none
    (chars "/w")).2.1 rfl, ?_⟩
  exact ((c4_status_error (fun _ _ => 0) (fun _ _ => [104, 105]) (chars "ls") none
    (chars "/w")).2.2.1 (chars "hi") (by decide)).2 rfl

/-- C5 counterexample: exit status 2 with stdout byte `0xC0` — `run` raises
the decode error, not the generic execution error, so failure reporting is
not independent of output content. -/
theorem c5_counterexample :
    (run (fun _ _ => 2) (fun _ _ => [192]) (chars "x") none (chars "/h")).1 =
      Except.error PyError.unicodeDecodeError ∧
    (run (fun _ _ => 2) (fun _ _ => [192]) (chars "x") none (chars "/h")).1 ≠
      Except.error (PyError.runtimeError (errorExecuting (chars "x"))) :=
  ⟨by decide, by decide⟩

/-- C5 (amended): on a nonzero exit status `run` always raises (it never
returns the output), and whenever the captured stdout is valid UTF-8 the
raised error is the generic execution error — i.e. detection from the exit
status is independent of the content only across valid-UTF-8 outputs; a
non-UTF-8 stdout raises `UnicodeDecodeError` instead. -/
theorem c5_nonzero_raises (sys : List Char → List Char → Nat)
    (out : List Char → List Char → List Nat) (s : List Char)
    (path : Option (List Char)) (cwd : List Char)
    (h : sys s (handle_path path cwd) ≠ 0) :
    (∀ o, (run sys out s path cwd).1 ≠ Except.ok o) ∧
    (∀ decoded, utf8Decode (out s (handle_path path cwd)) = some decoded →
      (run sys out s path cwd).1 =
        Except.error (PyError.runtimeError (errorExecuting s))) := by
  constructor
  · intro o
    cases hdec : utf8Decode (out s (handle_path path cwd)) with
    | none => simp [run, hdec]
    | some d => simp [run, hdec, h]
  · intro decoded hdec
    simp [run, hdec, h]

/-- C5 witness: a failing command with valid ASCII stdout raises the
generic execution error. -/
theorem c5_witness :
    (run (fun _ _ => 1) (fun _ _ => [104]) (chars "go") none (chars "/h")).1 =
      Except.error (PyError.runtimeError (errorExecuting (chars "go"))) :=
  (c5_nonzero_raises (fun _ _ => 1) (fun _ _ => [104]) (chars "go") none (chars "/h")
    (by decide)).2 [Char.ofNat 104] (by decide)

/-- C7: when the first three of five packages install cleanly and the
fourth's install exits nonzero, `ci` stops with the generic execution
error: the trace shows exactly four `npm ci` invocations — the fifth
package is never reached — and the error message carries the fourth
package's install command. -/
theorem c7_ci_abort (sys : List Char → List Char → Nat)
    (p1 p2 p3 p4 p5 cwd : List Char) (habs : isAbs cwd = true)
    (h1 : sys npmCi (pathJoin cwd p1) = 0) (h2 : sys npmCi (pathJoin cwd p2) = 0)
    (h3 : sys npmCi (pathJoin cwd p3) = 0) (h4 : sys npmCi (pathJoin cwd p4) ≠ 0) :
    (ci sys [p1, p2, p3, p4, p5] cwd).1 =
      Except.error (PyError.runtimeError (errorExecuting npmCi)) ∧
    (ci sys [p1, p2, p3, p4, p5] cwd).2.2 =
      [(npmCi, pathJoin cwd p1), (npmCi, pathJoin cwd p2), (npmCi, pathJoin cwd p3),
       (npmCi, pathJoin cwd p4)] ∧
    (∃ l r, errorExecuting npmCi = l ++ npmCi ++ r) := by
  have hc : ∀ p, cmd sys npmCi (some p) cwd =
      ((if sys npmCi (pathJoin cwd p) ≠ 0 then
          Except.error (PyError.runtimeError (errorExecuting npmCi))
        else Except.ok ()),
       cwd, [(npmCi, pathJoin cwd p)]) := by
    intro p
    simp [cmd, handle_path, pathJoin_abs _ _ habs]
  refine ⟨?_, ?_, chars "Error executing " ++ [squote], [squote], by simp [errorExecuting]⟩
  · simp [ci, hc, h1, h2, h3, h4]
  · simp [ci, hc, h1, h2, h3, h4]

/-- C7 witness: five concrete packages with the fourth's install failing. -/
theorem c7_witness :
    (ci (fun _ d => if d = chars "/w/d" then 1 else 0)
        [chars "a", chars "b", chars "c", chars "d", chars "e"] (chars "/w")).1 =
      Except.error (PyError.runtimeError (errorExecuting npmCi)) ∧
    (ci (fun _ d => if d = chars "/w/d" then 1 else 0)
        [chars "a", chars "b", chars "c", chars "d", chars "e"] (chars "/w")).2.2 =
      [(npmCi, pathJoin (chars "/w") (chars "a")), (npmCi, pathJoin (chars "/w") (chars "b")),
       (npmCi, pathJoin (chars "/w") (chars "c")),
       (npmCi, pathJoin (chars "/w") (chars "d"))] := by
  have H := c7_ci_abort (fun _ d => if d = chars "/w/d" then 1 else 0)
    (chars "a") (chars "b") (chars "c") (chars "d") (chars "e") (chars "/w")
    (by decide) (by decide) (by decide) (by decide) (by decide)
  exact ⟨H.1, H.2.1⟩

/-- Gluing the same relative suffix onto two paths is injective. -/
theorem pathJoin_cancel (p q x : List Char) (hx : isAbs x = false)
    (h : pathJoin p x = pathJoin q x) : p = q := by
  rw [pathJoin, pathJoin, if_neg (by simp [hx]), if_neg (by simp [hx])] at h
  exact List.append_cancel_right h

/-- Every `rmtree` event of the build loop deletes the `dist` directory of
some processed package other than `packages/static` — on success and abort
paths alike. -/
theorem buildLoop_rmtree_mem (sys : List Char → List Char → Nat) :
    ∀ (v : List (List Char)) (fs : List Char → Bool) (cwd q : List Char),
      BEvent.rmtree q ∈ (buildLoop sys fs v cwd).2.2 →
      ∃ p ∈ v, p ≠ staticPath ∧ q = pathJoin p distName
  | [], fs, cwd, q => by simp [buildLoop]
  | p :: rest, fs, cwd, q => by
    intro hq
    rw [buildLoop] at hq
    by_cases hd : p ≠ staticPath ∧ fs (pathJoin p distName) = true
    · by_cases hs : sys buildCmd (pathJoin cwd p) ≠ 0
      · simp [cmd, handle_path, hs, hd] at hq
        exact ⟨p, List.mem_cons_self p rest, hd.1, hq⟩
      · simp [cmd, handle_path, hs, hd] at hq
        rcases hq with rfl | h2
        · exact ⟨p, List.mem_cons_self p rest, hd.1, rfl⟩
        · obtain ⟨p2, hp2, hne, hq2⟩ := buildLoop_rmtree_mem sys rest _ _ q h2
          exact ⟨p2, List.mem_cons_of_mem p hp2, hne, hq2⟩
    · by_cases hs : sys buildCmd (pathJoin cwd p) ≠ 0
      · simp [cmd, handle_path, hs, hd] at hq
      · simp [cmd, handle_path, hs, hd] at hq
        obtain ⟨p2, hp2, hne, hq2⟩ := buildLoop_rmtree_mem sys rest _ _ q hq
        exact ⟨p2, List.mem_cons_of_mem p hp2, hne, hq2⟩

/-- When every build command exits 0 and the selected list has no
duplicates, the build trace decomposes package by package: each
non-`packages/static` package with an existing `dist` contributes its
`rmtree` immediately before its build invocation, every other package
contributes only its build invocation. -/
theorem buildLoop_trace (sys : List Char → List Char → Nat)
    (hsys : ∀ c, sys buildCmd c = 0) :
    ∀ (v : List (List Char)) (fs : List Char → Bool) (cwd : List Char),
      isAbs cwd = true → v.Nodup →
      (buildLoop sys fs v cwd).2.2 = v.flatMap (fun p =>
        (if p ≠ staticPath ∧ fs (pathJoin p distName) = true
         then [BEvent.rmtree (pathJoin p distName)] else [])
        ++ [BEvent.exec buildCmd (pathJoin cwd p)])
  | [], fs, cwd => by simp [buildLoop]
  | p :: rest, fs, cwd => by
    intro habs hnd
    have hs : ¬sys buildCmd (pathJoin cwd p) ≠ 0 := by simp [hsys]
    have hcwd : pathJoin (pathJoin cwd p) cwd = cwd := pathJoin_abs _ _ habs
    have hrest : ∀ fsx : List Char → Bool,
        (buildLoop sys fsx rest cwd).2.2 = rest.flatMap (fun p2 =>
          (if p2 ≠ staticPath ∧ fsx (pathJoin p2 distName) = true
           then [BEvent.rmtree (pathJoin p2 distName)] else [])
          ++ [BEvent.exec buildCmd (pathJoin cwd p2)]) :=
      fun fsx => buildLoop_trace sys hsys rest fsx cwd habs (List.Nodup.of_cons hnd)
    by_cases hd : p ≠ staticPath ∧ fs (pathJoin p distName) = true
    · rw [buildLoop]
      simp only [cmd, handle_path, hs, if_neg hs, if_pos hd, ite_false, ite_true,
        List.map_cons, List.map_nil, hcwd]
      rw [hrest]
      rw [List.flatMap_cons, if_pos hd]
      congr 1
      refine List.flatMap_congr (fun p2 hp2 => ?_)
      have hne : p2 ≠ p := fun h => (List.nodup_cons.1 hnd).1 (h ▸ hp2)
      have hfs : pathJoin p2 distName ≠ pathJoin p distName :=
        fun h => hne (pathJoin_cancel p2 p distName (by decide) h)
      simp [hfs]
    · rw [buildLoop]
      simp only [cmd, handle_path, hs, if_neg hs, if_neg hd, ite_false, ite_true,
        List.map_cons, List.map_nil, hcwd]
      rw [hrest]
      rw [List.flatMap_cons, if_neg hd]

/-- C8: the `build` handler never emits an `rmtree` of
`packages/static/dist` even when that directory exists; and (when the
builds succeed and the selected list has no duplicates) every other
selected package with an existing `dist` has it deleted immediately before
its own build command runs. -/
theorem c8_build_static_dist (fs : List Char → Bool)
    (sys : List Char → List Char → Nat) (v : List (List Char)) (cwd : List Char) :
    BEvent.rmtree (pathJoin staticPath distName) ∉ (buildLoop sys fs v cwd).2.2 ∧
    (isAbs cwd = true → (∀ c, sys buildCmd c = 0) → v.Nodup →
      (buildLoop sys fs v cwd).2.2 = v.flatMap (fun p =>
        (if p ≠ staticPath ∧ fs (pathJoin p distName) = true
         then [BEvent.rmtree (pathJoin p distName)] else [])
        ++ [BEvent.exec buildCmd (pathJoin cwd p)])) := by
  constructor
  · intro hmem
    obtain ⟨p, hp, hne, heq⟩ := buildLoop_rmtree_mem sys v fs cwd _ hmem
    exact hne (pathJoin_cancel p staticPath distName (by decide) heq.symm)
  · intro habs hsys hnd
    exact buildLoop_trace sys hsys v fs cwd habs hnd

/-- C8 witness: two concrete packages, `dist` existing everywhere, all
builds succeeding — `packages/static` keeps its `dist`, the other package
loses its `dist` right before its build command. -/
theorem c8_witness :
    BEvent.rmtree (pathJoin staticPath distName) ∉
      (buildLoop (fun _ _ => 0) (fun _ => true)
        [staticPath, chars "packages/a"] (chars "/w")).2.2 ∧
    (buildLoop (fun _ _ => 0) (fun _ => true)
        [staticPath, chars "packages/a"] (chars "/w")).2.2 =
      [staticPath, chars "packages/a"].flatMap (fun p =>
        (if p ≠ staticPath ∧ (fun _ : List Char => true) (pathJoin p distName) = true
         then [BEvent.rmtree (pathJoin p distName)] else [])
        ++ [BEvent.exec buildCmd (pathJoin (chars "/w") p)]) := by
  have H := c8_build_static_dist (fun _ => true) (fun _ _ => 0)
    [staticPath, chars "packages/a"] (chars "/w")
  exact ⟨H.1, H.2 (by decide) (fun _ => rfl) (by decide)⟩

end Workspaces
